import Mathlib

/-!
Verification development for the SmartCare patient queue and triage system
(repository KomalLaddha-dev/DevOcs_HackNagpur).

The repository ships the React frontend (pages under frontend/src) together
with documentation of the backend algorithms (README: scoring formula,
priority-score calculation, greedy doctor assignment).  The backend engine
itself (Severity Scorer, per-department priority queue, spare-doctor
allocator, activity log) is reached only through HTTP calls from the
frontend; its definitions are therefore modelled here from the written
specification, while the check-in form logic is embedded directly from
frontend/src/pages/CheckInPage.tsx.
-/

namespace SmartCare

/-! ## Severity Scorer -/

/-- Modelled from the spec: the fixed symptom-to-severity table of the
Severity Scorer (backend component absent from the repository sources).
Critical tags (chest pain, breathing difficulty) carry base severity of at
least 9; ordinary tags carry moderate severities. -/
def symptomTable : List (String × Nat) :=
  [("chest_pain", 10), ("difficulty_breathing", 9), ("breathing_difficulty", 9),
   ("high_fever", 7), ("abdominal_pain", 6), ("vomiting", 5), ("fever", 5),
   ("dizziness", 5), ("nausea", 4), ("headache", 4), ("cough", 3),
   ("sore_throat", 3), ("body_pain", 3), ("fatigue", 2), ("rash", 2)]

/-- Modelled from the spec: the critical symptom tags that force a hard
override of the weighted blend. -/
def criticalTags : List String :=
  ["chest_pain", "difficulty_breathing", "breathing_difficulty"]

/-- Severity of a single tag from the table; `none` for an unknown tag. -/
def tagSeverity (t : String) : Option Nat :=
  (symptomTable.find? (fun p => p.fst == t)).map Prod.snd

/-- Base score: highest-severity matched tag; unknown tags are
score-neutral (contribute 0). -/
def baseScore (symptoms : List String) : Nat :=
  symptoms.foldl (fun acc t => max acc ((tagSeverity t).getD 0)) 0

/-- Whether the symptom set contains a critical tag. -/
def hasCritical (symptoms : List String) : Bool :=
  symptoms.any (fun t => criticalTags.contains t)

/-- Input of the Severity Scorer. -/
structure ScorerInput where
  symptoms : List String
  durationHours : Nat
  selfSeverity : Nat
  age : Nat
  chronicTags : List String
deriving DecidableEq

/-- Modelled from the spec: duration factor, increasing with the untreated
duration and capped (cap reached at 200 hours, the largest duration bucket
the check-in form produces). -/
def durationFactor (h : Nat) : ℚ := min ((h : ℚ) / 20) 10

/-- Self-reported severity normalised onto the blending scale. -/
def selfNorm (s : Nat) : ℚ := min (s : ℚ) 10

/-- Clamp a rounded score into the integer band 1..10. -/
def clampScore (z : ℤ) : Nat := (min (max z 1) 10).toNat

/-- Modelled from the spec: the weighted blend used when no critical tag is
present, rounded and clamped to the 1..10 band. -/
def weightedScore (inp : ScorerInput) : Nat :=
  clampScore (round ((baseScore inp.symptoms : ℚ) * (6/10)
    + durationFactor inp.durationHours * (2/10)
    + selfNorm inp.selfSeverity * (2/10)))

/-- Whether any chronic-condition tag is present. -/
def hasChronic (inp : ScorerInput) : Bool := !inp.chronicTags.isEmpty

/-- Modelled from the spec: pre-bump severity score.  A critical tag forces
a hard override to at least 9; otherwise the weighted blend applies. -/
def rawScore (inp : ScorerInput) : Nat :=
  if hasCritical inp.symptoms then max (baseScore inp.symptoms) 9
  else weightedScore inp

/-- Modelled from the spec: final severity score, with the fixed +1 chronic
bump capped at 10. -/
def severityScore (inp : ScorerInput) : Nat :=
  if hasChronic inp then min (rawScore inp + 1) 10 else rawScore inp

/-- Explanation trail before the chronic bump entry. -/
def baseExplanation (inp : ScorerInput) : List String :=
  inp.symptoms.map (fun t =>
    match tagSeverity t with
    | some _ => "matched symptom " ++ t
    | none => "unknown symptom " ++ t ++ " treated as neutral")

/-- Modelled from the spec: the ordered explanation list; the chronic bump
appends its own entry. -/
def scorerExplanation (inp : ScorerInput) : List String :=
  baseExplanation inp ++
    (if hasChronic inp then ["chronic condition: severity increased by 1"] else [])

/-! ## Priority queue -/

/-- Status of one active visit. -/
inductive EntryStatus where
  | waiting
  | called
  | inConsultation
  | completed
deriving DecidableEq

/-- One active visit as carried by a department queue. -/
structure QueueEntry where
  entryId : Nat
  department : String
  severity : Nat
  age : Nat
  chronic : Bool
  checkInTime : Nat
  status : EntryStatus
deriving DecidableEq

/-- Modelled from the spec: wait-normalisation cap in minutes; elapsed wait
saturates the wait component after this long. -/
def waitCapMinutes : ℚ := 120

/-- Normalised wait: grows with elapsed time since check-in, capped at 1. -/
def normalizedWait (checkIn now : Nat) : ℚ :=
  min (((now - checkIn : Nat) : ℚ) / waitCapMinutes) 1

/-- Age factor: 1.2 for age at least 65 or at most 5, else 1.0. -/
def ageFactor (age : Nat) : ℚ := if 65 ≤ age ∨ age ≤ 5 then 6/5 else 1

/-- Chronic factor: 1.2 when any chronic tag is present, else 1.0. -/
def chronicFactor (b : Bool) : ℚ := if b then 6/5 else 1

/-- Severity normalised to the 0..1 band. -/
def normalizedSeverity (s : Nat) : ℚ := (s : ℚ) / 10

/-- Modelled from the spec: the composite priority score of a queue entry at
a given clock reading (minutes). -/
def priorityScore (e : QueueEntry) (now : Nat) : ℚ :=
  (4/10) * normalizedSeverity e.severity + (3/10) * normalizedWait e.checkInTime now
    + (15/100) * ageFactor e.age + (15/100) * chronicFactor e.chronic

/-- Generic single-pass maximum selection used by the queue and by the
allocator candidate search. -/
def chooseBest (better : α → α → Bool) : α → List α → α
  | best, [] => best
  | best, x :: xs => chooseBest better (if better x best then x else best) xs

/-- The comparison used by `extractMax`: strictly higher priority wins, and
among equal priorities the earlier check-in wins. -/
def entryBeats (now : Nat) (a b : QueueEntry) : Bool :=
  decide (priorityScore b now < priorityScore a now)
    || (decide (priorityScore a now = priorityScore b now)
        && decide (a.checkInTime < b.checkInTime))

/-- Mark an extracted entry as called. -/
def markCalled (e : QueueEntry) : QueueEntry := { e with status := EntryStatus.called }

/-- Modelled from the spec: extract the highest-priority waiting entry of a
department queue.  Returns the called entry together with the remaining
queue, or `none` on an empty queue (the explicit empty result; no
exception). -/
def extractMax (now : Nat) (q : List QueueEntry) : Option (QueueEntry × List QueueEntry) :=
  match q with
  | [] => none
  | e :: rest =>
    let best := chooseBest (entryBeats now) e rest
    some (markCalled best, q.erase best)

/-- Dominance predicate for the extraction proof: `b` is at least as urgent
as `x`, with FIFO among equal priorities. -/
def notWorse (now : Nat) (b x : QueueEntry) : Prop :=
  priorityScore x now ≤ priorityScore b now
    ∧ (priorityScore x now = priorityScore b now → b.checkInTime ≤ x.checkInTime)

/-! ## Department registry and call-next -/

/-- Modelled from the spec: the Department/Doctor Registry entry, tracking
capacity and the active doctor count. -/
structure Department where
  name : String
  capacity : Nat
  activeDoctors : Nat
  currentLoad : Nat
deriving DecidableEq

/-- Modelled from the spec: the registry is the collection of departments. -/
structure Registry where
  departments : List Department
deriving DecidableEq

/-- System state carrying the per-department waiting queues and the
registry. -/
structure SystemState where
  queues : List (String × List QueueEntry)
  registry : Registry
deriving DecidableEq

/-- Waiting queue of a department inside the system state. -/
def deptQueue (s : SystemState) (d : String) : List QueueEntry :=
  ((s.queues.find? (fun p => p.fst == d)).map Prod.snd).getD []

/-- Replace the stored queue of one department. -/
def setDeptQueue (s : SystemState) (d : String) (q : List QueueEntry) : SystemState :=
  { s with queues := s.queues.map (fun p => if p.fst == d then (p.fst, q) else p) }

/-- Result of a call-next request: an explicit empty marker or a called
entry.  Callers branch on this; no exception path exists. -/
inductive CallNextResult where
  | emptyQueue
  | called (e : QueueEntry)
deriving DecidableEq

/-- Modelled from the spec: `callNext` pops the highest-priority waiting
entry of the department, or reports the explicit empty result leaving the
whole state (queues and registry) untouched. -/
def callNext (now : Nat) (s : SystemState) (d : String) : CallNextResult × SystemState :=
  match extractMax now (deptQueue s d) with
  | none => (CallNextResult.emptyQueue, s)
  | some (e, rest) => (CallNextResult.called e, setDeptQueue s d rest)

/-! ## Emergency override -/

/-- Immutable audit record of one emergency override. -/
structure OverrideLogEntry where
  timestamp : Nat
  entryId : Nat
  newSeverity : Nat
  reason : String
  actor : String
deriving DecidableEq

/-- A department queue paired with the append-only override log.  The list
head is the front of the queue. -/
structure DeptQueueState where
  entries : List QueueEntry
  overrideLog : List OverrideLogEntry
deriving DecidableEq

/-- The maximum severity band an override forces. -/
def maxSeverityBand : Nat := 10

/-- Force an entry to the maximum severity band. -/
def promoteEntry (e : QueueEntry) : QueueEntry := { e with severity := maxSeverityBand }

/-- Modelled from the spec: `emergencyPromote` force-sets the target entry
to the maximum severity band, relocates it to the queue head, and
unconditionally appends one OverrideLogEntry. -/
def emergencyPromote (st : DeptQueueState) (eid : Nat) (reason actor : String)
    (now : Nat) : DeptQueueState :=
  let logged := st.overrideLog ++
    [{ timestamp := now, entryId := eid, newSeverity := maxSeverityBand,
       reason := reason, actor := actor }]
  match st.entries.find? (fun e => e.entryId == eid) with
  | none => { st with overrideLog := logged }
  | some e =>
    { entries := promoteEntry e :: st.entries.filter (fun x => x.entryId != eid),
      overrideLog := logged }

/-! ## Spare-doctor pool -/

/-- Two-state machine status of a spare doctor. -/
inductive DoctorStatus where
  | available
  | assigned
deriving DecidableEq

/-- A cross-facility spare doctor. -/
structure SpareDoctor where
  doctorId : Nat
  specialty : String
  supportsTeleconsult : Bool
  maxPatients : Nat
  patientsSeen : Nat
  status : DoctorStatus
  assignedDepartment : Option String
  assignedAt : Option Nat
deriving DecidableEq

/-- The shared spare pool; writes to it are serialised, so any concurrent
set of allocator executions is observed as one sequence of operations. -/
abbrev SparePool := List SpareDoctor

/-- Modelled from the spec: assign a spare doctor to a department.  The
transition is legal only from the available status; an assign attempt on an
already-assigned doctor is a state conflict and returns `none` with no
mutation. -/
def assignDoctor (pool : SparePool) (did : Nat) (dept : String) (now : Nat) :
    Option SparePool :=
  match pool.find? (fun d => d.doctorId == did) with
  | none => none
  | some d =>
    if d.status = DoctorStatus.available then
      some (pool.map (fun x =>
        if x.doctorId == did then
          { x with status := DoctorStatus.assigned,
                   assignedDepartment := some dept, assignedAt := some now }
        else x))
    else none

/-- Modelled from the spec: release resets the status and clears the
department. -/
def releaseDoctor (pool : SparePool) (did : Nat) : SparePool :=
  pool.map (fun x =>
    if x.doctorId == did then
      { x with status := DoctorStatus.available,
               assignedDepartment := none, assignedAt := none }
    else x)

/-- One serialised operation on the spare pool. -/
inductive PoolOp where
  | assign (did : Nat) (dept : String) (now : Nat)
  | release (did : Nat)

/-- Apply one operation; a rejected assignment leaves the pool unchanged. -/
def applyOp (pool : SparePool) : PoolOp → SparePool
  | PoolOp.assign did dept now => (assignDoctor pool did dept now).getD pool
  | PoolOp.release did => releaseDoctor pool did

/-- Apply a serialised sequence of pool operations (any interleaving of
concurrent allocator executions appears as such a sequence). -/
def applyOps (pool : SparePool) (ops : List PoolOp) : SparePool :=
  ops.foldl applyOp pool

/-- The per-doctor invariant: an available doctor carries no department. -/
def availClean (d : SpareDoctor) : Prop :=
  d.status = DoctorStatus.available → d.assignedDepartment = none

/-- The pool invariant. -/
def poolInv (pool : SparePool) : Prop := ∀ d ∈ pool, availClean d

/-! ## Spare-resource allocator -/

/-- Ceiling division on naturals. -/
def ceilDiv (a b : Nat) : Nat := (a + b - 1) / b

/-- Modelled from the spec: number of extra doctors a department needs,
the ceiling of critical patients over current active doctors. -/
def extraDoctorsNeeded (critical active : Nat) : Nat := ceilDiv critical active

/-- Remaining consultation slots of a spare doctor. -/
def remainingSlots (d : SpareDoctor) : Nat := d.maxPatients - d.patientsSeen

/-- Workload-balance component of the candidate score. -/
def workloadBalance (d : SpareDoctor) : ℚ :=
  1 - (d.patientsSeen : ℚ) / ((max d.maxPatients 1 : Nat) : ℚ)

/-- Specialty-match component: 1.0 exact (or general-purpose), 0.5 else. -/
def specialtyMatch (d : SpareDoctor) (dept : String) : ℚ :=
  if d.specialty = dept then 1 else 1/2

/-- Availability component, capped at 1. -/
def availabilityScore (d : SpareDoctor) : ℚ :=
  min ((remainingSlots d : ℚ) / 10) 1

/-- Modelled from the spec: the greedy composite candidate score. -/
def candidateScore (d : SpareDoctor) (dept : String) : ℚ :=
  (40/100) * workloadBalance d + (35/100) * specialtyMatch d dept
    + (25/100) * availabilityScore d

/-- Eligibility: available status, and specialty matching the department or
general-purpose. -/
def eligibleDoctor (d : SpareDoctor) (dept : String) : Bool :=
  decide (d.status = DoctorStatus.available)
    && (decide (d.specialty = dept) || decide (d.specialty = "general"))

/-- Candidate-order comparison: higher composite score wins. -/
def doctorBeats (dept : String) (a b : SpareDoctor) : Bool :=
  decide (candidateScore b dept < candidateScore a dept)

/-- Modelled from the spec: single-pass greedy candidate selection among
eligible spare doctors, by descending composite score. -/
def findCandidate (pool : SparePool) (dept : String) : Option SpareDoctor :=
  match pool.filter (fun d => eligibleDoctor d dept) with
  | [] => none
  | e :: rest => some (chooseBest (doctorBeats dept) e rest)

/-- Assign up to `n` doctors to the department, one greedy pick at a time;
returns the new pool and the number of doctors assigned. -/
def assignUpTo (dept : String) (now : Nat) : SparePool → Nat → SparePool × Nat
  | pool, 0 => (pool, 0)
  | pool, n + 1 =>
    match findCandidate pool dept with
    | none => (pool, 0)
    | some d =>
      match assignDoctor pool d.doctorId dept now with
      | none => (pool, 0)
      | some p1 =>
        let r := assignUpTo dept now p1 n
        (r.fst, r.snd + 1)

/-- Modelled from the spec: `autoAllocate` assigns greedily chosen spare
doctors until the sizing formula is met or the eligible supply runs out. -/
def autoAllocate (pool : SparePool) (dept : String) (now critical active : Nat) :
    SparePool × Nat :=
  assignUpTo dept now pool (extraDoctorsNeeded critical active)

/-- Number of doctors in the pool whose status is available. -/
def availableCount (pool : SparePool) : Nat :=
  pool.countP (fun d => d.status == DoctorStatus.available)

/-! ## Check-in form (frontend/src/pages/CheckInPage.tsx) -/

/-- The chronic-condition choices rendered by the check-in form. -/
def chronicConditionChoices : List String :=
  ["Diabetes", "Hypertension", "Heart Disease", "Asthma",
   "COPD", "Kidney Disease", "Cancer", "None"]

/-- `toggleCondition` of CheckInPage: selecting None clears the selection;
selecting any other condition toggles it, stripping None when adding. -/
def toggleCondition (condition : String) (prev : List String) : List String :=
  if condition = "None" then []
  else if prev.contains condition then prev.filter (fun c => c ≠ condition)
  else (prev.filter (fun c => c ≠ "None")) ++ [condition]

/-- The selection state reached from the initial empty selection after a
sequence of condition clicks. -/
def selectionAfter (clicks : List String) : List String :=
  clicks.foldl (fun s c => toggleCondition c s) []

/-- Lower-case a display label and replace spaces by underscores, as
`s.toLowerCase().replace(/ /g, '_')` does in the submit handler. -/
def slugify (s : String) : String :=
  String.mk (s.data.map (fun c => if c = ' ' then '_' else c.toLower))

/-- The duration bucket map of CheckInPage (`DURATION_MAP[...] || 0`). -/
def durationMap (s : String) : Nat :=
  if s = "just_now" then 0
  else if s = "hours" then 2
  else if s = "today" then 12
  else if s = "days" then 48
  else if s = "week" then 168
  else if s = "longer" then 200
  else 0

/-- The JSON body posted to the checkin endpoint by `onSubmit`. -/
structure CheckInPayload where
  patientId : Nat
  patientName : String
  symptoms : List String
  description : String
  age : Nat
  chronicConditions : List String
  durationHours : Nat
  selfSeverity : Nat
  department : String
deriving DecidableEq

/-- The payload construction of `onSubmit`: `patient_id` is `Date.now()`,
symptoms and chronic conditions are slugified, None is filtered out of the
chronic list. -/
def mkCheckInPayload (fullName description duration : String)
    (selfSeverity age : Nat) (selectedSymptoms selectedConditions : List String)
    (selectedDepartment : String) (now : Nat) : CheckInPayload :=
  { patientId := now,
    patientName := fullName,
    symptoms := selectedSymptoms.map slugify,
    description := description,
    age := age,
    chronicConditions := (selectedConditions.filter (fun c => c ≠ "None")).map slugify,
    durationHours := durationMap duration,
    selfSeverity := selfSeverity,
    department := selectedDepartment }


/-- Concrete department state used by the override witness. -/
def sampleOverrideState : DeptQueueState :=
  { entries := [⟨7, "general", 4, 50, false, 10, EntryStatus.waiting⟩],
    overrideLog := [] }

/-! ## Supporting lemmas -/

theorem hasCritical_of_mem {symptoms : List String} {t : String}
    (hc : t ∈ criticalTags) (hs : t ∈ symptoms) : hasCritical symptoms = true := by
  simp only [hasCritical, List.any_eq_true]
  exact ⟨t, hs, by simpa using hc⟩

theorem rawScore_ge_of_critical {inp : ScorerInput}
    (h : hasCritical inp.symptoms = true) : 9 ≤ rawScore inp := by
  simp only [rawScore, h, if_true]
  exact Nat.le_max_right _ _

theorem chooseBest_mem (better : α → α → Bool) :
    ∀ (l : List α) (b : α), chooseBest better b l ∈ b :: l := by
  intro l
  induction l with
  | nil => intro b; simp [chooseBest]
  | cons x xs ih =>
    intro b
    by_cases hb : better x b = true
    · simp only [chooseBest, hb, if_true]
      exact List.mem_cons_of_mem b (ih x)
    · have hb' : better x b = false := by simpa using hb
      simp only [chooseBest, hb', Bool.false_eq_true, if_false]
      rcases List.mem_cons.mp (ih b) with h | h
      · rw [h]; exact List.mem_cons_self _ _
      · exact List.mem_cons_of_mem b (List.mem_cons_of_mem x h)

theorem chooseBest_good (better : α → α → Bool) (good : α → α → Prop)
    (hrefl : ∀ a, good a a)
    (hpos : ∀ x y z, better x y = true → good z x → good z y)
    (hneg : ∀ x y z, better x y = false → good z y → good z x) :
    ∀ (l : List α) (b : α) (x : α), x ∈ b :: l → good (chooseBest better b l) x := by
  intro l
  induction l with
  | nil =>
    intro b x hx
    rcases List.mem_cons.mp hx with h | h
    · rw [h]; exact hrefl _
    · cases h
  | cons y ys ih =>
    intro b x hx
    by_cases hb : better y b = true
    · have hres : chooseBest better b (y :: ys) = chooseBest better y ys := by
        simp [chooseBest, hb]
      rw [hres]
      rcases List.mem_cons.mp hx with h | h
      · rw [h]
        exact hpos _ _ _ hb (ih y y (List.mem_cons_self _ _))
      · exact ih y x h
    · have hb' : better y b = false := by
        simpa using hb
      have hres : chooseBest better b (y :: ys) = chooseBest better b ys := by
        simp [chooseBest, hb']
      rw [hres]
      rcases List.mem_cons.mp hx with h | h
      · rw [h]
        exact ih b b (List.mem_cons_self _ _)
      rcases List.mem_cons.mp h with h2 | h2
      · rw [h2]
        exact hneg _ _ _ hb' (ih b b (List.mem_cons_self _ _))
      · exact ih b x (List.mem_cons.mpr (Or.inr h2))

theorem notWorse_refl (now : Nat) (a : QueueEntry) : notWorse now a a :=
  ⟨le_refl _, fun _ => le_refl _⟩

theorem entryBeats_pos {now : Nat} {x y z : QueueEntry}
    (h : entryBeats now x y = true) (hzx : notWorse now z x) : notWorse now z y := by
  rcases hzx with ⟨hle, htie⟩
  simp only [entryBeats, Bool.or_eq_true, Bool.and_eq_true, decide_eq_true_eq] at h
  rcases h with hlt | ⟨heq, hct⟩
  · refine ⟨le_trans (le_of_lt hlt) hle, fun htiey => ?_⟩
    exact absurd (lt_of_lt_of_le hlt (htiey ▸ hle)) (lt_irrefl _)
  · refine ⟨heq ▸ hle, fun htiey => ?_⟩
    have hx : priorityScore x now = priorityScore z now := heq ▸ htiey
    exact le_trans (le_of_lt (lt_of_le_of_lt (htie hx) hct)) (le_refl _)

theorem entryBeats_neg {now : Nat} {x y z : QueueEntry}
    (h : entryBeats now x y = false) (hzy : notWorse now z y) : notWorse now z x := by
  rcases hzy with ⟨hle, htie⟩
  simp only [entryBeats, Bool.or_eq_false_iff, Bool.and_eq_false_iff,
    decide_eq_false_iff_not, not_lt] at h
  rcases h with ⟨hxy, hrest⟩
  refine ⟨le_trans hxy hle, fun htiex => ?_⟩
  have hxeqy : priorityScore x now = priorityScore y now :=
    le_antisymm hxy (le_trans (htiex ▸ hle) (le_of_eq rfl))
  rcases hrest with hne | hct
  · exact absurd hxeqy hne
  · have : priorityScore y now = priorityScore z now := hxeqy ▸ htiex
    exact le_trans (htie this) hct

theorem extractMax_best {now : Nat} {q : List QueueEntry} {e : QueueEntry}
    {rest : List QueueEntry} (h : extractMax now q = some (e, rest)) :
    ∃ b ∈ q, e = markCalled b ∧ ∀ x ∈ q, notWorse now b x := by
  match q, h with
  | a :: l, h =>
    simp only [extractMax, Option.some.injEq, Prod.mk.injEq] at h
    refine ⟨chooseBest (entryBeats now) a l, chooseBest_mem _ l a, h.1.symm, ?_⟩
    intro x hx
    exact chooseBest_good (entryBeats now) (notWorse now) (notWorse_refl now)
      (fun _ _ _ hb hg => entryBeats_pos hb hg)
      (fun _ _ _ hb hg => entryBeats_neg hb hg) l a x hx

theorem clampScore_bounds (z : ℤ) : 1 ≤ clampScore z ∧ clampScore z ≤ 10 := by
  unfold clampScore
  omega

theorem tagSeverity_le (t : String) : (tagSeverity t).getD 0 ≤ 10 := by
  unfold tagSeverity
  cases hf : symptomTable.find? (fun p => p.fst == t) with
  | none => simp
  | some p =>
    have hp : p ∈ symptomTable := List.mem_of_find?_eq_some hf
    have : ∀ q ∈ symptomTable, q.snd ≤ 10 := by decide
    simpa using this p hp

theorem baseScore_le (symptoms : List String) : baseScore symptoms ≤ 10 := by
  unfold baseScore
  have key : ∀ (l : List String) (acc : Nat), acc ≤ 10 →
      l.foldl (fun acc t => max acc ((tagSeverity t).getD 0)) acc ≤ 10 := by
    intro l
    induction l with
    | nil => intro acc h; simpa using h
    | cons t ts ih =>
      intro acc h
      exact ih _ (max_le h (tagSeverity_le t))
  exact key symptoms 0 (by omega)

theorem weightedScore_bounds (inp : ScorerInput) :
    1 ≤ weightedScore inp ∧ weightedScore inp ≤ 10 := by
  unfold weightedScore
  exact clampScore_bounds _

/-- C1: for every Severity Scorer input whose symptom tag set contains a
critical tag (such as chest_pain or breathing_difficulty), the returned
severity score is at least 9, regardless of all other inputs. -/
theorem critical_tag_forces_score_ge_nine (inp : ScorerInput) (t : String)
    (hc : t ∈ criticalTags) (hs : t ∈ inp.symptoms) :
    9 ≤ severityScore inp := by
  have hcrit : hasCritical inp.symptoms = true := hasCritical_of_mem hc hs
  have hraw : 9 ≤ rawScore inp := rawScore_ge_of_critical hcrit
  unfold severityScore
  by_cases h : hasChronic inp = true
  · simp only [h, if_true]
    omega
  · simp only [h, if_false, Bool.false_eq_true]
    exact hraw

/-- Closed witness for the critical-tag claim: a concrete check-in with
chest pain, low self-report, young age and no chronic tags still scores at
least 9. -/
theorem critical_tag_forces_score_ge_nine_witness :
    "chest_pain" ∈ criticalTags ∧
    "chest_pain" ∈ ["chest_pain", "fever"] ∧
    9 ≤ severityScore
      { symptoms := ["chest_pain", "fever"], durationHours := 0,
        selfSeverity := 1, age := 30, chronicTags := [] } :=
  ⟨by decide, by decide,
    critical_tag_forces_score_ge_nine
      { symptoms := ["chest_pain", "fever"], durationHours := 0,
        selfSeverity := 1, age := 30, chronicTags := [] }
      "chest_pain" (by decide) (by decide)⟩

/-- C4: without a critical tag the final score is the rounded weighted blend
clamped to 1..10; a chronic condition adds a fixed +1 bump capped at 10 and
appends the bump entry to the explanation list. -/
theorem noncritical_weighted_score (inp : ScorerInput)
    (h : hasCritical inp.symptoms = false) :
    (hasChronic inp = false → severityScore inp
        = clampScore (round ((baseScore inp.symptoms : ℚ) * (6/10)
            + durationFactor inp.durationHours * (2/10)
            + selfNorm inp.selfSeverity * (2/10))))
    ∧ (hasChronic inp = true →
        severityScore inp
          = min (clampScore (round ((baseScore inp.symptoms : ℚ) * (6/10)
              + durationFactor inp.durationHours * (2/10)
              + selfNorm inp.selfSeverity * (2/10))) + 1) 10
        ∧ scorerExplanation inp
          = baseExplanation inp ++ ["chronic condition: severity increased by 1"])
    ∧ 1 ≤ severityScore inp ∧ severityScore inp ≤ 10 := by
  have hraw : rawScore inp = weightedScore inp := by
    simp [rawScore, h]
  have hw := weightedScore_bounds inp
  refine ⟨?_, ?_, ?_, ?_⟩
  · intro hch
    simp [severityScore, hch, hraw, weightedScore]
  · intro hch
    constructor
    · simp [severityScore, hch, hraw, weightedScore]
    · simp [scorerExplanation, hch]
  · unfold severityScore
    by_cases hch : hasChronic inp = true
    · simp only [hch, if_true]; omega
    · simp only [hch, if_false, Bool.false_eq_true]; omega
  · unfold severityScore
    by_cases hch : hasChronic inp = true
    · simp only [hch, if_true]; omega
    · simp only [hch, if_false, Bool.false_eq_true]; omega

/-- Closed witness for the weighted-blend claim at a concrete non-critical
chronic input. -/
theorem noncritical_weighted_score_witness :
    hasCritical ["fever", "cough"] = false ∧
    (severityScore
        { symptoms := ["fever", "cough"], durationHours := 48,
          selfSeverity := 6, age := 40, chronicTags := ["diabetes"] }
      = min (clampScore (round ((baseScore ["fever", "cough"] : ℚ) * (6/10)
          + durationFactor 48 * (2/10) + selfNorm 6 * (2/10))) + 1) 10) := by
  have h : hasCritical ["fever", "cough"] = false := by decide
  have hch : hasChronic
      { symptoms := ["fever", "cough"], durationHours := 48,
        selfSeverity := 6, age := 40, chronicTags := ["diabetes"] } = true := by decide
  exact ⟨h, ((noncritical_weighted_score
    { symptoms := ["fever", "cough"], durationHours := 48,
      selfSeverity := 6, age := 40, chronicTags := ["diabetes"] } h).2.1 hch).1⟩

theorem chooseBest_notWorse (now : Nat) (l : List QueueEntry) (b x : QueueEntry)
    (hx : x ∈ b :: l) : notWorse now (chooseBest (entryBeats now) b l) x :=
  chooseBest_good (entryBeats now) (notWorse now) (notWorse_refl now)
    (fun _ _ _ hb hg => entryBeats_pos hb hg)
    (fun _ _ _ hb hg => entryBeats_neg hb hg) l b x hx

/-- C2: on every non-empty department queue, `extractMax` returns the entry
with the maximal current priority score, and among equal priority scores the
entry with the earliest check-in timestamp. -/
theorem extractMax_returns_highest_priority (now : Nat) (q : List QueueEntry)
    (hne : q ≠ []) :
    ∃ b rest, extractMax now q = some (markCalled b, rest) ∧ b ∈ q
      ∧ (∀ x ∈ q, priorityScore x now ≤ priorityScore b now)
      ∧ (∀ x ∈ q, priorityScore x now = priorityScore b now →
          b.checkInTime ≤ x.checkInTime) := by
  match q, hne with
  | e :: l, _ =>
    refine ⟨chooseBest (entryBeats now) e l,
      (e :: l).erase (chooseBest (entryBeats now) e l), rfl, chooseBest_mem _ l e,
      fun x hx => (chooseBest_notWorse now l e x hx).1,
      fun x hx => (chooseBest_notWorse now l e x hx).2⟩

/-- Closed witness for the extraction claim on a concrete two-entry queue. -/
theorem extractMax_returns_highest_priority_witness :
    ([⟨1, "general", 9, 30, false, 100, EntryStatus.waiting⟩,
      ⟨2, "general", 3, 30, false, 50, EntryStatus.waiting⟩] : List QueueEntry) ≠ []
    ∧ ∃ b rest,
        extractMax 200
          [⟨1, "general", 9, 30, false, 100, EntryStatus.waiting⟩,
           ⟨2, "general", 3, 30, false, 50, EntryStatus.waiting⟩]
          = some (markCalled b, rest)
        ∧ b ∈ ([⟨1, "general", 9, 30, false, 100, EntryStatus.waiting⟩,
                ⟨2, "general", 3, 30, false, 50, EntryStatus.waiting⟩] : List QueueEntry)
        ∧ (∀ x ∈ ([⟨1, "general", 9, 30, false, 100, EntryStatus.waiting⟩,
                   ⟨2, "general", 3, 30, false, 50, EntryStatus.waiting⟩] : List QueueEntry),
            priorityScore x 200 ≤ priorityScore b 200)
        ∧ (∀ x ∈ ([⟨1, "general", 9, 30, false, 100, EntryStatus.waiting⟩,
                   ⟨2, "general", 3, 30, false, 50, EntryStatus.waiting⟩] : List QueueEntry),
            priorityScore x 200 = priorityScore b 200 → b.checkInTime ≤ x.checkInTime) :=
  ⟨by simp,
    extractMax_returns_highest_priority 200
      [⟨1, "general", 9, 30, false, 100, EntryStatus.waiting⟩,
       ⟨2, "general", 3, 30, false, 50, EntryStatus.waiting⟩] (by simp)⟩

/-- C3: the priority score is the documented weighted blend
0.40 severity + 0.30 wait + 0.15 age + 0.15 chronic, where the normalised
wait grows monotonically with elapsed time and caps at 1, the age factor is
1.2 for age at least 65 or at most 5 and 1.0 otherwise, and the chronic
factor is 1.2 exactly when a chronic tag is present. -/
theorem priority_score_formula (e : QueueEntry) (now : Nat) :
    priorityScore e now
      = (40/100) * ((e.severity : ℚ) / 10)
        + (30/100) * normalizedWait e.checkInTime now
        + (15/100) * ageFactor e.age + (15/100) * chronicFactor e.chronic
    ∧ (∀ t1 t2 : Nat, t1 ≤ t2 →
        normalizedWait e.checkInTime t1 ≤ normalizedWait e.checkInTime t2)
    ∧ normalizedWait e.checkInTime now ≤ 1
    ∧ (65 ≤ e.age ∨ e.age ≤ 5 → ageFactor e.age = 12/10)
    ∧ (e.age < 65 ∧ 5 < e.age → ageFactor e.age = 1)
    ∧ (e.chronic = true → chronicFactor e.chronic = 12/10)
    ∧ (e.chronic = false → chronicFactor e.chronic = 1) := by
  refine ⟨?_, ?_, ?_, ?_, ?_, ?_, ?_⟩
  · unfold priorityScore normalizedSeverity
    norm_num
  · intro t1 t2 h
    unfold normalizedWait waitCapMinutes
    have hsub : ((t1 - e.checkInTime : Nat) : ℚ) ≤ ((t2 - e.checkInTime : Nat) : ℚ) := by
      exact_mod_cast Nat.sub_le_sub_right h _
    gcongr
  · exact min_le_right _ _
  · intro h
    unfold ageFactor
    rw [if_pos h]
    norm_num
  · intro h
    unfold ageFactor
    rw [if_neg (by omega)]
  · intro h
    rw [h]
    unfold chronicFactor
    norm_num
  · intro h
    rw [h]
    rfl

/-- Closed witness for the priority-formula claim: monotone wait, cap, and
the 1.2 factors at concrete inputs. -/
theorem priority_score_formula_witness :
    normalizedWait 0 30 ≤ normalizedWait 0 60
    ∧ normalizedWait 0 60 ≤ 1
    ∧ ageFactor 70 = 12/10
    ∧ chronicFactor true = 12/10 := by
  have h := priority_score_formula ⟨1, "general", 8, 70, true, 0, EntryStatus.waiting⟩ 60
  exact ⟨h.2.1 30 60 (by omega), h.2.2.1, h.2.2.2.1 (by decide), h.2.2.2.2.2.1 rfl⟩

/-- C8: calling next on a department with an empty queue yields the explicit
empty result value and leaves the whole system state, queues and registry
alike, unchanged. -/
theorem callNext_empty_explicit (now : Nat) (s : SystemState) (d : String)
    (h : deptQueue s d = []) :
    callNext now s d = (CallNextResult.emptyQueue, s) := by
  unfold callNext
  rw [h]
  rfl

/-- Closed witness for the empty-queue claim on a concrete state. -/
theorem callNext_empty_explicit_witness :
    deptQueue
        { queues := [("general", [])],
          registry := { departments := [⟨"general", 10, 2, 0⟩] } } "general" = []
    ∧ callNext 0
        { queues := [("general", [])],
          registry := { departments := [⟨"general", 10, 2, 0⟩] } } "general"
      = (CallNextResult.emptyQueue,
         { queues := [("general", [])],
           registry := { departments := [⟨"general", 10, 2, 0⟩] } }) :=
  ⟨rfl,
    callNext_empty_explicit 0
      { queues := [("general", [])],
        registry := { departments := [⟨"general", 10, 2, 0⟩] } } "general" rfl⟩

theorem emergencyPromote_eq_of_find (st : DeptQueueState) (eid : Nat)
    (r a : String) (t : Nat) (e1 : QueueEntry)
    (hfind : st.entries.find? (fun e => e.entryId == eid) = some e1) :
    emergencyPromote st eid r a t
      = { entries := promoteEntry e1 :: st.entries.filter (fun x => x.entryId != eid),
          overrideLog := st.overrideLog ++
            [{ timestamp := t, entryId := eid, newSeverity := maxSeverityBand,
               reason := r, actor := a }] } := by
  unfold emergencyPromote
  rw [hfind]

/-- C6: after `emergencyPromote` the target entry sits at the queue head at
the maximum severity band, exactly one override-log entry is appended per
call, and a second call on the same entry leaves the queue identical while
appending only another log entry. -/
theorem emergencyPromote_head_log_idempotent (st : DeptQueueState) (eid : Nat)
    (r1 a1 r2 a2 : String) (t1 t2 : Nat)
    (h : ∃ e ∈ st.entries, e.entryId = eid) :
    (∃ e, (emergencyPromote st eid r1 a1 t1).entries.head? = some e
       ∧ e.entryId = eid ∧ e.severity = maxSeverityBand)
    ∧ (emergencyPromote st eid r1 a1 t1).overrideLog.length
        = st.overrideLog.length + 1
    ∧ (emergencyPromote (emergencyPromote st eid r1 a1 t1) eid r2 a2 t2).entries
        = (emergencyPromote st eid r1 a1 t1).entries
    ∧ (emergencyPromote (emergencyPromote st eid r1 a1 t1) eid r2 a2 t2).overrideLog.length
        = (emergencyPromote st eid r1 a1 t1).overrideLog.length + 1 := by
  obtain ⟨e0, he0, hid0⟩ := h
  have hsome : (st.entries.find? (fun e => e.entryId == eid)).isSome := by
    refine List.find?_isSome.mpr ⟨e0, he0, ?_⟩
    simp [hid0]
  obtain ⟨e1, hfind⟩ := Option.isSome_iff_exists.mp hsome
  have hid1 : e1.entryId = eid := by
    have := List.find?_some hfind
    simpa using this
  have h1 := emergencyPromote_eq_of_find st eid r1 a1 t1 e1 hfind
  rw [h1]
  have hfind2 :
      (promoteEntry e1 :: st.entries.filter (fun x => x.entryId != eid)).find?
        (fun e => e.entryId == eid) = some (promoteEntry e1) := by
    refine List.find?_cons_of_pos _ ?_
    simp [promoteEntry, hid1]
  have h2 := emergencyPromote_eq_of_find
    { entries := promoteEntry e1 :: st.entries.filter (fun x => x.entryId != eid),
      overrideLog := st.overrideLog ++
        [{ timestamp := t1, entryId := eid, newSeverity := maxSeverityBand,
           reason := r1, actor := a1 }] }
    eid r2 a2 t2 (promoteEntry e1) hfind2
  rw [h2]
  refine ⟨⟨promoteEntry e1, rfl, by simpa [promoteEntry] using hid1, rfl⟩, by simp, ?_, by simp⟩
  show promoteEntry (promoteEntry e1)
      :: ((promoteEntry e1 :: st.entries.filter (fun x => x.entryId != eid)).filter
            (fun x => x.entryId != eid))
    = promoteEntry e1 :: st.entries.filter (fun x => x.entryId != eid)
  have hidem : promoteEntry (promoteEntry e1) = promoteEntry e1 := rfl
  have hhead : ((promoteEntry e1).entryId != eid) = false := by
    simp [promoteEntry, hid1]
  rw [hidem]
  simp only [List.filter_cons, hhead, if_false, Bool.false_eq_true]
  rw [List.filter_filter]
  simp only [Bool.and_self]

/-- Closed witness for the override claim on a concrete one-entry queue. -/
theorem emergencyPromote_head_log_idempotent_witness :
    (∃ e ∈ sampleOverrideState.entries, e.entryId = 7)
    ∧ (∃ e, (emergencyPromote sampleOverrideState 7 "bleeding" "doc" 11).entries.head?
          = some e ∧ e.entryId = 7 ∧ e.severity = maxSeverityBand)
    ∧ (emergencyPromote sampleOverrideState 7 "bleeding" "doc" 11).overrideLog.length
        = sampleOverrideState.overrideLog.length + 1 := by
  have hmem : ∃ e ∈ sampleOverrideState.entries, e.entryId = 7 :=
    ⟨⟨7, "general", 4, 50, false, 10, EntryStatus.waiting⟩, by simp [sampleOverrideState], rfl⟩
  have h := emergencyPromote_head_log_idempotent sampleOverrideState 7
    "bleeding" "doc" "again" "doc" 11 12 hmem
  exact ⟨hmem, h.1, h.2.1⟩

theorem assignDoctor_inv {pool p1 : SparePool} {did : Nat} {dept : String}
    {now : Nat} (hinv : poolInv pool)
    (h : assignDoctor pool did dept now = some p1) : poolInv p1 := by
  unfold assignDoctor at h
  split at h
  · cases h
  · split at h
    · injection h with h
      intro x hx
      rw [← h] at hx
      obtain ⟨y, hy, hxy⟩ := List.mem_map.mp hx
      by_cases hmatch : (y.doctorId == did) = true
      · rw [← hxy]
        simp only [hmatch, if_true]
        intro hst
        cases hst
      · rw [← hxy]
        simp only [hmatch, Bool.false_eq_true, if_false]
        exact hinv y hy
    · cases h

theorem releaseDoctor_inv {pool : SparePool} {did : Nat} (hinv : poolInv pool) :
    poolInv (releaseDoctor pool did) := by
  intro x hx
  unfold releaseDoctor at hx
  obtain ⟨y, hy, hxy⟩ := List.mem_map.mp hx
  by_cases hmatch : (y.doctorId == did) = true
  · rw [← hxy]
    simp only [hmatch, if_true]
    intro _
    rfl
  · rw [← hxy]
    simp only [hmatch, Bool.false_eq_true, if_false]
    exact hinv y hy

theorem applyOp_preserves_inv {pool : SparePool} (hinv : poolInv pool) (op : PoolOp) :
    poolInv (applyOp pool op) := by
  cases op with
  | assign did dept now =>
    show poolInv ((assignDoctor pool did dept now).getD pool)
    cases ha : assignDoctor pool did dept now with
    | none => simpa using hinv
    | some p1 => simpa using assignDoctor_inv hinv ha
  | release did =>
    exact releaseDoctor_inv hinv

theorem applyOps_preserves_inv :
    ∀ (ops : List PoolOp) (pool : SparePool), poolInv pool → poolInv (applyOps pool ops) := by
  intro ops
  induction ops with
  | nil => intro pool h; simpa [applyOps] using h
  | cons op rest ih =>
    intro pool h
    have h1 : poolInv (applyOp pool op) := applyOp_preserves_inv h op
    simpa [applyOps, List.foldl_cons] using ih (applyOp pool op) h1

theorem assign_conflict_rejected {pool : SparePool} {did : Nat} {dept : String}
    {now : Nat} {d : SpareDoctor}
    (hfind : pool.find? (fun x => x.doctorId == did) = some d)
    (hst : d.status = DoctorStatus.assigned) :
    applyOp pool (PoolOp.assign did dept now) = pool := by
  have hnone : assignDoctor pool did dept now = none := by
    unfold assignDoctor
    rw [hfind]
    simp [hst]
  show (assignDoctor pool did dept now).getD pool = pool
  rw [hnone]
  rfl

theorem release_resets {pool : SparePool} {did : Nat} {x : SpareDoctor}
    (hx : x ∈ releaseDoctor pool did) (hid : x.doctorId = did) :
    x.status = DoctorStatus.available ∧ x.assignedDepartment = none := by
  unfold releaseDoctor at hx
  obtain ⟨y, hy, hxy⟩ := List.mem_map.mp hx
  by_cases hmatch : (y.doctorId == did) = true
  · rw [← hxy]
    simp [hmatch]
  · rw [← hxy] at hid
    simp only [hmatch, Bool.false_eq_true, if_false] at hid
    exact absurd hid (by simpa using hmatch)

/-- C5: a SpareDoctor is a two-state machine.  Over every serialised
sequence of pool operations (pool writes are serialised, so any
interleaving of concurrent allocator executions is such a sequence) the
pool invariant is preserved; an assignment attempted on a doctor already in
the assigned state is rejected without any mutation, so a doctor is never
moved to a second department without an intervening release; and release
resets the status and clears the department. -/
theorem spare_doctor_single_assignment :
    (∀ (pool : SparePool) (ops : List PoolOp),
        poolInv pool → poolInv (applyOps pool ops))
    ∧ (∀ (pool : SparePool) (did : Nat) (dept : String) (now : Nat) (d : SpareDoctor),
        pool.find? (fun x => x.doctorId == did) = some d →
        d.status = DoctorStatus.assigned →
        applyOp pool (PoolOp.assign did dept now) = pool)
    ∧ (∀ (pool : SparePool) (did : Nat) (x : SpareDoctor),
        x ∈ releaseDoctor pool did → x.doctorId = did →
        x.status = DoctorStatus.available ∧ x.assignedDepartment = none) :=
  ⟨fun _ ops hinv => applyOps_preserves_inv ops _ hinv,
   fun _ _ _ _ _ hfind hst => assign_conflict_rejected hfind hst,
   fun _ _ _ hx hid => release_resets hx hid⟩

/-- Closed witness for the spare-doctor claim: a concrete pool run and a
concrete rejected double assignment. -/
theorem spare_doctor_single_assignment_witness :
    poolInv ([⟨1, "general", false, 5, 0, DoctorStatus.available, none, none⟩] : SparePool)
    ∧ poolInv (applyOps
        [⟨1, "general", false, 5, 0, DoctorStatus.available, none, none⟩]
        [PoolOp.assign 1 "cardiology" 5, PoolOp.release 1])
    ∧ applyOp
        ([⟨2, "general", false, 5, 0, DoctorStatus.assigned, some "general", some 1⟩] : SparePool)
        (PoolOp.assign 2 "cardiology" 9)
      = [⟨2, "general", false, 5, 0, DoctorStatus.assigned, some "general", some 1⟩] := by
  have hinv : poolInv
      ([⟨1, "general", false, 5, 0, DoctorStatus.available, none, none⟩] : SparePool) := by
    intro d hd
    rw [List.mem_singleton.mp hd]
    intro _
    rfl
  refine ⟨hinv, spare_doctor_single_assignment.1 _ _ hinv, ?_⟩
  exact spare_doctor_single_assignment.2.1
    [⟨2, "general", false, 5, 0, DoctorStatus.assigned, some "general", some 1⟩]
    2 "cardiology" 9
    ⟨2, "general", false, 5, 0, DoctorStatus.assigned, some "general", some 1⟩
    (by rfl) rfl

theorem countP_lt_of_witness {p q : α → Bool} :
    ∀ {l : List α} {x : α}, x ∈ l → p x = true → q x = false →
      (∀ y ∈ l, q y = true → p y = true) → l.countP q < l.countP p := by
  intro l
  induction l with
  | nil => intro x hx; cases hx
  | cons a t ih =>
    intro x hx hp hq hmono
    rw [List.countP_cons, List.countP_cons]
    rcases List.mem_cons.mp hx with h | h
    · have hqa : q a = false := by rw [← h]; exact hq
      have hpa : p a = true := by rw [← h]; exact hp
      have hmono' : t.countP q ≤ t.countP p :=
        List.countP_mono_left (fun y hy hqy => hmono y (List.mem_cons_of_mem a hy) hqy)
      simp only [hqa, hpa, if_true, Bool.false_eq_true, if_false]
      omega
    · have hstrict : t.countP q < t.countP p :=
        ih h hp hq (fun y hy hqy => hmono y (List.mem_cons_of_mem a hy) hqy)
      have hhead : (if q a = true then 1 else 0) ≤ (if p a = true then 1 else 0) := by
        by_cases hqa : q a = true
        · rw [if_pos hqa, if_pos (hmono a (List.mem_cons_self a t) hqa)]
        · rw [if_neg hqa]
          exact Nat.zero_le _
      omega

theorem findCandidate_available {pool : SparePool} {dept : String} {d : SpareDoctor}
    (h : findCandidate pool dept = some d) : d.status = DoctorStatus.available := by
  unfold findCandidate at h
  split at h
  · cases h
  · rename_i e rest heq
    injection h with h
    have hmem : d ∈ e :: rest := by
      rw [← h]
      exact chooseBest_mem (doctorBeats dept) rest e
    rw [← heq] at hmem
    have helig : eligibleDoctor d dept = true := (List.mem_filter.mp hmem).2
    simp only [eligibleDoctor, Bool.and_eq_true, decide_eq_true_eq] at helig
    exact helig.1

theorem assignDoctor_decreases {pool p1 : SparePool} {did : Nat} {dept : String}
    {now : Nat} (h : assignDoctor pool did dept now = some p1) :
    availableCount p1 < availableCount pool := by
  unfold assignDoctor at h
  split at h
  · cases h
  · rename_i d hf
    split at h
    · rename_i hs
      injection h with h
      rw [← h]
      unfold availableCount
      rw [List.countP_map]
      have hbeq : (d.doctorId == did) = true := by
        simpa using List.find?_some hf
      refine countP_lt_of_witness (List.mem_of_find?_eq_some hf) ?_ ?_ ?_
      · simp [hs]
      · simp [Function.comp, hbeq]
      · intro y hy hqy
        simp only [Function.comp] at hqy
        by_cases hym : (y.doctorId == did) = true
        · simp [hym] at hqy
        · simpa [hym] using hqy
    · cases h

theorem assignUpTo_le (dept : String) (now : Nat) :
    ∀ (n : Nat) (pool : SparePool), (assignUpTo dept now pool n).snd ≤ n := by
  intro n
  induction n with
  | zero => intro pool; simp [assignUpTo]
  | succ n ih =>
    intro pool
    unfold assignUpTo
    split
    · simp
    · split
      · simp
      · rename_i d hd p1 hp1
        have := ih p1
        simpa using Nat.succ_le_succ this

theorem assignUpTo_le_avail (dept : String) (now : Nat) :
    ∀ (n : Nat) (pool : SparePool), (assignUpTo dept now pool n).snd ≤ availableCount pool := by
  intro n
  induction n with
  | zero => intro pool; simp [assignUpTo]
  | succ n ih =>
    intro pool
    unfold assignUpTo
    split
    · simp
    · split
      · simp
      · rename_i d hd p1 hp1
        have hdec : availableCount p1 < availableCount pool := assignDoctor_decreases hp1
        have hle := ih p1
        show (assignUpTo dept now p1 n).snd + 1 ≤ availableCount pool
        omega

theorem ceilDiv_le_mul {c a : Nat} (ha : 0 < a) : c ≤ a * ceilDiv c a := by
  unfold ceilDiv
  have h1 := Nat.div_add_mod (c + a - 1) a
  have h2 := Nat.mod_lt (c + a - 1) ha
  generalize hM : a * ((c + a - 1) / a) = M at h1 ⊢
  generalize hR : (c + a - 1) % a = R at h1 h2
  omega

/-- C7: `autoAllocate` assigns at most `extraDoctorsNeeded`, the ceiling of
critical patients over active doctors, further bounded by the available
spare supply, and every greedy candidate it assigns has status available at
the moment of its assignment (the candidate search runs on the
then-current pool at every step). -/
theorem autoAllocate_safe (pool : SparePool) (dept : String)
    (now critical active : Nat) (ha : 0 < active) :
    (autoAllocate pool dept now critical active).snd ≤ extraDoctorsNeeded critical active
    ∧ (autoAllocate pool dept now critical active).snd ≤ availableCount pool
    ∧ critical ≤ active * extraDoctorsNeeded critical active
    ∧ (∀ (p : SparePool) (d : SpareDoctor),
        findCandidate p dept = some d → d.status = DoctorStatus.available) :=
  ⟨assignUpTo_le dept now (extraDoctorsNeeded critical active) pool,
   assignUpTo_le_avail dept now (extraDoctorsNeeded critical active) pool,
   ceilDiv_le_mul ha,
   fun _ _ h => findCandidate_available h⟩

/-- Closed witness for the allocator claim: three critical patients, two
active doctors and a single available spare doctor. -/
theorem autoAllocate_safe_witness :
    0 < 2
    ∧ (autoAllocate
        ([⟨1, "general", false, 5, 0, DoctorStatus.available, none, none⟩] : SparePool)
        "general" 0 3 2).snd ≤ extraDoctorsNeeded 3 2
    ∧ (autoAllocate
        ([⟨1, "general", false, 5, 0, DoctorStatus.available, none, none⟩] : SparePool)
        "general" 0 3 2).snd
      ≤ availableCount
          ([⟨1, "general", false, 5, 0, DoctorStatus.available, none, none⟩] : SparePool) := by
  have h := autoAllocate_safe
    [⟨1, "general", false, 5, 0, DoctorStatus.available, none, none⟩]
    "general" 0 3 2 (by decide)
  exact ⟨by decide, h.1, h.2.1⟩

/-- C9: each submission of the check-in form sends `patient_id = Date.now()`;
submissions at distinct millisecond timestamps therefore carry distinct,
fresh patient identities rather than a stable patient reference. -/
theorem checkin_patient_id_is_timestamp (fullName description duration : String)
    (selfSeverity age : Nat) (symptoms conditions : List String)
    (department : String) (t1 t2 : Nat) (hne : t1 ≠ t2) :
    (mkCheckInPayload fullName description duration selfSeverity age
        symptoms conditions department t1).patientId = t1
    ∧ (mkCheckInPayload fullName description duration selfSeverity age
        symptoms conditions department t1).patientId
      ≠ (mkCheckInPayload fullName description duration selfSeverity age
          symptoms conditions department t2).patientId :=
  ⟨rfl, by simpa [mkCheckInPayload] using hne⟩

/-- Closed witness for the patient-id claim at two concrete timestamps. -/
theorem checkin_patient_id_is_timestamp_witness :
    (1000 : Nat) ≠ 1001
    ∧ (mkCheckInPayload "A" "d" "hours" 5 30 ["Fever"] [] "general" 1000).patientId = 1000
    ∧ (mkCheckInPayload "A" "d" "hours" 5 30 ["Fever"] [] "general" 1000).patientId
      ≠ (mkCheckInPayload "A" "d" "hours" 5 30 ["Fever"] [] "general" 1001).patientId := by
  have h := checkin_patient_id_is_timestamp "A" "d" "hours" 5 30 ["Fever"] []
    "general" 1000 1001 (by decide)
  exact ⟨by decide, h.1, h.2⟩

theorem toggleCondition_none_not_mem {c : String} {s : List String}
    (hc : c ≠ "None") (hs : "None" ∉ s) : "None" ∉ toggleCondition c s := by
  unfold toggleCondition
  rw [if_neg hc]
  by_cases hmem : s.contains c = true
  · rw [if_pos hmem]
    intro hIn
    exact hs (List.mem_of_mem_filter hIn)
  · rw [if_neg hmem]
    intro hIn
    rcases List.mem_append.mp hIn with h | h
    · have := List.of_mem_filter h
      simp at this
    · exact hc (List.mem_singleton.mp h).symm

theorem toggleCondition_add_removes_none {c : String} {s : List String}
    (hc : c ≠ "None") (hmem : s.contains c = false) :
    "None" ∉ toggleCondition c s := by
  unfold toggleCondition
  rw [if_neg hc, if_neg (by simp only [hmem]; exact Bool.false_ne_true)]
  intro hIn
  rcases List.mem_append.mp hIn with h | h
  · have := List.of_mem_filter h
    simp at this
  · exact hc (List.mem_singleton.mp h).symm

theorem selectionAfter_no_none : ∀ clicks : List String, "None" ∉ selectionAfter clicks := by
  have key : ∀ (clicks s : List String), "None" ∉ s →
      "None" ∉ clicks.foldl (fun s c => toggleCondition c s) s := by
    intro clicks
    induction clicks with
    | nil => intro s hs; simpa using hs
    | cons c rest ih =>
      intro s hs
      rw [List.foldl_cons]
      apply ih
      by_cases hc : c = "None"
      · rw [hc]
        simp [toggleCondition]
      · exact toggleCondition_none_not_mem hc hs
  intro clicks
  exact key clicks [] (by simp)

theorem toggleCondition_subset {c : String} {s choices : List String}
    (hc : c ∈ choices) (hs : ∀ x ∈ s, x ∈ choices) :
    ∀ x ∈ toggleCondition c s, x ∈ choices := by
  intro x hx
  unfold toggleCondition at hx
  by_cases h1 : c = "None"
  · rw [if_pos h1] at hx
    cases hx
  · rw [if_neg h1] at hx
    by_cases h2 : s.contains c = true
    · rw [if_pos h2] at hx
      exact hs x (List.mem_of_mem_filter hx)
    · rw [if_neg h2] at hx
      rcases List.mem_append.mp hx with h | h
      · exact hs x (List.mem_of_mem_filter h)
      · rw [List.mem_singleton.mp h]
        exact hc

theorem selectionAfter_mem_choices {clicks : List String}
    (h : ∀ c ∈ clicks, c ∈ chronicConditionChoices) :
    ∀ x ∈ selectionAfter clicks, x ∈ chronicConditionChoices := by
  have key : ∀ (cl s : List String), (∀ c ∈ cl, c ∈ chronicConditionChoices) →
      (∀ x ∈ s, x ∈ chronicConditionChoices) →
      ∀ x ∈ cl.foldl (fun s c => toggleCondition c s) s, x ∈ chronicConditionChoices := by
    intro cl
    induction cl with
    | nil => intro s _ hs; simpa using hs
    | cons c rest ih =>
      intro s hcl hs
      rw [List.foldl_cons]
      exact ih _ (fun y hy => hcl y (List.mem_cons_of_mem c hy))
        (toggleCondition_subset (hcl c (List.mem_cons_self c rest)) hs)
  exact key clicks [] h (by simp)

theorem slugify_choices_ne_none :
    ∀ x ∈ chronicConditionChoices, x ≠ "None" → slugify x ≠ "none" := by decide

/-- C10: 'None' is mutually exclusive with every other chronic condition:
selecting None empties the selection, selecting any other condition strips
None while adding it, the selection reachable from the empty initial state
never contains None, and the chronic_conditions list sent by the submit
handler never contains the tag "none". -/
theorem chronic_none_exclusive (fullName description duration : String)
    (selfSeverity age : Nat) (symptoms : List String) (department : String)
    (now : Nat) :
    (∀ s : List String, toggleCondition "None" s = [])
    ∧ (∀ (c : String) (s : List String), c ≠ "None" → s.contains c = false →
        "None" ∉ toggleCondition c s)
    ∧ (∀ clicks : List String, "None" ∉ selectionAfter clicks)
    ∧ (∀ clicks : List String, (∀ c ∈ clicks, c ∈ chronicConditionChoices) →
        "none" ∉ (mkCheckInPayload fullName description duration selfSeverity age
            symptoms (selectionAfter clicks) department now).chronicConditions) := by
  refine ⟨fun s => by simp [toggleCondition],
    fun c s hc hm => toggleCondition_add_removes_none hc hm,
    selectionAfter_no_none, ?_⟩
  intro clicks hcl hIn
  simp only [mkCheckInPayload] at hIn
  obtain ⟨x, hxmem, hxslug⟩ := List.mem_map.mp hIn
  have hxfil := List.mem_filter.mp hxmem
  have hxne : x ≠ "None" := by simpa using hxfil.2
  have hxch : x ∈ chronicConditionChoices :=
    selectionAfter_mem_choices hcl x hxfil.1
  exact slugify_choices_ne_none x hxch hxne hxslug

/-- Closed witness for the None-exclusivity claim at concrete clicks. -/
theorem chronic_none_exclusive_witness :
    toggleCondition "None" ["Diabetes"] = []
    ∧ "None" ∉ toggleCondition "Diabetes" ["None"]
    ∧ "None" ∉ selectionAfter ["Diabetes", "None", "Asthma"]
    ∧ "none" ∉ (mkCheckInPayload "A" "d" "days" 5 40 ["Fever"]
        (selectionAfter ["Diabetes", "Heart Disease"]) "general" 99).chronicConditions := by
  have h := chronic_none_exclusive "A" "d" "days" 5 40 ["Fever"] "general" 99
  exact ⟨h.1 ["Diabetes"],
    h.2.1 "Diabetes" ["None"] (by decide) (by decide),
    h.2.2.1 ["Diabetes", "None", "Asthma"],
    h.2.2.2 ["Diabetes", "Heart Disease"] (by decide)⟩

end SmartCare
